import Mathlib

/-!
Verification of the Jungle Chess (Dou Shou Qi) engine core.

This file gives a shallow embedding of the engine's position representation
and move mechanics (src/engine/types.h, src/engine/board.cpp) and of the
transposition-table mate-score adjustment (src/engine/search.cpp), and proves
properties of the embedded operations.

Conventions of the embedding:
 - C `int8_t squares[63]` becomes a total function `Nat → Int`
   (0 = empty, +rank = Light piece, -rank = Dark piece).
 - C `int8_t pieceSq[2][9]` becomes `Nat → Nat → Int` (-1 = captured).
 - `uint64_t` Zobrist keys and hashes become `Nat`; the only operations the
   code performs on them are XOR and equality, on which `Nat` agrees with
   64-bit words whenever the inputs are below 2^64 (XOR never carries).
 - The Zobrist key tables, filled by a seeded mt19937_64 in `initTables`,
   are abstracted as a parameter `Zob`; no claim depends on the concrete
   pseudo-random values, so theorems quantify over the table.
 - Fixed-size C arrays with explicit length counters (`posHistory`/`histLen`,
   `undoStack`/`ply`) become total functions plus the counter.
-/

namespace Jungine

/-! ### Constants (src/engine/types.h) -/

def BOARD_W : Nat := 7
def NUM_SQ : Nat := 63

def RAT : Nat := 1
def CAT : Nat := 2
def DOG : Nat := 3
def WOLF : Nat := 4
def LEOPARD : Nat := 5
def TIGER : Nat := 6
def LION : Nat := 7
def ELEPHANT : Nat := 8

def LIGHT : Nat := 0
def DARK : Nat := 1

def TERRAIN_LAND : Nat := 0
def TERRAIN_WATER : Nat := 1
def TERRAIN_TRAP_LIGHT : Nat := 2
def TERRAIN_TRAP_DARK : Nat := 3
def TERRAIN_DEN_LIGHT : Nat := 4
def TERRAIN_DEN_DARK : Nat := 5

def sqRow (sq : Nat) : Nat := sq / BOARD_W
def sqCol (sq : Nat) : Nat := sq % BOARD_W
def makeSq (r c : Nat) : Nat := r * BOARD_W + c

def DEN_LIGHT_SQ : Nat := makeSq 0 3
def DEN_DARK_SQ : Nat := makeSq 8 3

def SCORE_MATE : Int := 29000
def MAX_PLY : Int := 128
def MOVE_NONE : Nat := 0xFFFF

/-- The four step directions N, S, E, W, in the order of `DIRS` in types.h. -/
def DIRS : List Int := [7, -7, 1, -1]

/-- `canStep` from types.h: whether a step by `dir` from `from0` stays on the
board (bounds check plus east/west column wrap checks). -/
def canStep (from0 : Nat) (dir : Int) : Bool :=
  let t0 : Int := (from0 : Int) + dir
  if t0 < 0 ∨ (63 : Int) ≤ t0 then false
  else if dir = 1 ∧ sqCol from0 = BOARD_W - 1 then false
  else if dir = -1 ∧ sqCol from0 = 0 then false
  else true

/-! ### Terrain tables (initTables in board.cpp) -/

/-- The twelve water squares, in the order they are listed in `initTables`. -/
def waterSqs : List Nat := [22, 23, 29, 30, 36, 37, 25, 26, 32, 33, 39, 40]

def isWater (sq : Nat) : Bool := waterSqs.contains sq

def lightTraps : List Nat := [makeSq 0 2, makeSq 0 4, makeSq 1 3]
def darkTraps : List Nat := [makeSq 8 2, makeSq 8 4, makeSq 7 3]

/-- The terrain classification built by `initTables` (the water/den/trap
square sets are pairwise disjoint, so the write order there is immaterial). -/
def terrain (sq : Nat) : Nat :=
  if isWater sq then TERRAIN_WATER
  else if sq = DEN_LIGHT_SQ then TERRAIN_DEN_LIGHT
  else if sq = DEN_DARK_SQ then TERRAIN_DEN_DARK
  else if lightTraps.contains sq then TERRAIN_TRAP_LIGHT
  else if darkTraps.contains sq then TERRAIN_TRAP_DARK
  else TERRAIN_LAND

/-! ### Move encoding (types.h): from in bits 0-5, to in bits 6-11 -/

def encodeMove (f t : Nat) : Nat := (f ||| (t <<< 6)) % 65536

def moveFrom (m : Nat) : Nat := m &&& 0x3F

def moveTo (m : Nat) : Nat := (m >>> 6) &&& 0x3F

/-! ### Jump table (initTables in board.cpp) -/

/-- One entry of the lion/tiger river-jump table: launch square, landing
square, and the water squares whose occupation blocks the jump.
(`from` is a Lean keyword, hence the field names `fromSq`/`toSq`.) -/
structure JumpEntry where
  fromSq : Nat
  toSq : Nat
  blocking : List Nat
deriving DecidableEq, Repr

/-- The 20 jump edges, in the construction order of `initTables`:
left-river horizontal, right-river horizontal, left-river vertical,
right-river vertical; each in both directions. -/
def jumpTable : List JumpEntry :=
  ([3, 4, 5].flatMap fun r =>
    [⟨makeSq r 0, makeSq r 3, [makeSq r 1, makeSq r 2]⟩,
     ⟨makeSq r 3, makeSq r 0, [makeSq r 2, makeSq r 1]⟩]) ++
  ([3, 4, 5].flatMap fun r =>
    [⟨makeSq r 3, makeSq r 6, [makeSq r 4, makeSq r 5]⟩,
     ⟨makeSq r 6, makeSq r 3, [makeSq r 5, makeSq r 4]⟩]) ++
  ([1, 2].flatMap fun c =>
    [⟨makeSq 2 c, makeSq 6 c, [makeSq 3 c, makeSq 4 c, makeSq 5 c]⟩,
     ⟨makeSq 6 c, makeSq 2 c, [makeSq 5 c, makeSq 4 c, makeSq 3 c]⟩]) ++
  ([4, 5].flatMap fun c =>
    [⟨makeSq 2 c, makeSq 6 c, [makeSq 3 c, makeSq 4 c, makeSq 5 c]⟩,
     ⟨makeSq 6 c, makeSq 2 c, [makeSq 5 c, makeSq 4 c, makeSq 3 c]⟩])

/-- The per-square lookup `sqJumpLookup` flattens `jumpTable` by launch
square, preserving table order; iterating it is iterating this filter. -/
def sqJumps (sq : Nat) : List JumpEntry :=
  jumpTable.filter (fun e => e.fromSq == sq)

/-! ### Zobrist keys and position state -/

/-- The Zobrist key bundle (`zobristPiece[sq][rank][color]`, `zobristSide`).
`initTables` fills it from mt19937_64 seeded with 0xDEADBEEF42; the proofs
are independent of the concrete stream, so they take the bundle as a
parameter. -/
structure Zob where
  piece : Nat → Nat → Nat → Nat
  side : Nat

/-- `UndoInfo` from board.h. -/
structure UndoInfo where
  captured : Int
  hash : Nat
  halfmove : Nat
  move : Nat
deriving DecidableEq

instance : Inhabited UndoInfo := ⟨⟨0, 0, 0, 0⟩⟩

/-- The `Board` state of board.h.  Arrays become total functions; the members
not touched by the embedded operations keep their roles (`undoStack` is
indexed by `ply`, `posHistory` by `histLen`). -/
structure Board where
  squares : Nat → Int
  sideToMove : Nat
  hash : Nat
  ply : Nat
  halfmove : Nat
  pieceSq : Nat → Nat → Int
  pieceCount : Nat → Int
  undoStack : Nat → UndoInfo
  posHistory : Nat → Nat
  histLen : Nat

/-- Pointwise array update. -/
def upd {α : Type} (f : Nat → α) (i : Nat) (v : α) : Nat → α :=
  fun j => if j = i then v else f j

/-- Pointwise update of a two-index array. -/
def upd2 {α : Type} (f : Nat → Nat → α) (i j : Nat) (v : α) : Nat → Nat → α :=
  fun a b => if a = i ∧ b = j then v else f a b

/-- Color of a nonzero signed piece value (`piece > 0 ? LIGHT : DARK`). -/
def colorOf (piece : Int) : Nat := if 0 < piece then LIGHT else DARK

/-! ### Zobrist hash recomputation (Board::computeHash) -/

/-- `Board::computeHash`: XOR of the keys of all live pieces over squares
0..62, then the side key if Dark is to move. -/
def computeHash (Z : Zob) (b : Board) : Nat :=
  let base := (List.range NUM_SQ).foldl
    (fun h s =>
      if b.squares s ≠ 0 then
        h ^^^ Z.piece s (b.squares s).natAbs (colorOf (b.squares s))
      else h) 0
  if b.sideToMove = DARK then base ^^^ Z.side else base

/-- Per-square hash contribution of a board (the XOR term `computeHash`
accumulates for square `s`). -/
def pieceKey (Z : Zob) (b : Board) (s : Nat) : Nat :=
  if b.squares s ≠ 0 then Z.piece s (b.squares s).natAbs (colorOf (b.squares s)) else 0

/-! ### Capture legality (Board::canCapture) -/

/-- `Board::canCapture` translated clause for clause from board.cpp. -/
def canCapture (attackerRank defenderRank attackerColor fromSq toSq : Nat) : Bool :=
  let fromW := isWater fromSq
  let toW := isWater toSq
  if fromW ≠ toW then false
  else if fromW ∧ toW then true
  else if attackerColor = LIGHT ∧ terrain toSq = TERRAIN_TRAP_LIGHT then true
  else if attackerColor = DARK ∧ terrain toSq = TERRAIN_TRAP_DARK then true
  else if attackerRank = RAT ∧ defenderRank = ELEPHANT then true
  else if attackerRank = ELEPHANT ∧ defenderRank = RAT then false
  else decide (defenderRank ≤ attackerRank)

/-! ### Move generation (Board::addNormalMoves, addJumpMoves, generateMoves) -/

/-- Body of `Board::addNormalMoves` (it reads only the `squares` array of
the board): the one-step moves of the piece of rank `rank` and color
`color` standing on `sq`. -/
def addNormalMovesCore (squares : Nat → Int) (sq rank color : Nat) : List Nat :=
  DIRS.filterMap fun d =>
    if canStep sq d then
      let t := ((sq : Int) + d).toNat
      let ter := terrain t
      if color = LIGHT ∧ ter = TERRAIN_DEN_LIGHT then none
      else if color = DARK ∧ ter = TERRAIN_DEN_DARK then none
      else if ter = TERRAIN_WATER ∧ rank ≠ RAT then none
      else
        let target := squares t
        if target = 0 then some (encodeMove sq t)
        else if colorOf target = color then none
        else if canCapture rank target.natAbs color sq t then some (encodeMove sq t)
        else none
    else none

/-- `Board::addNormalMoves`. -/
def addNormalMoves (b : Board) (sq rank color : Nat) : List Nat :=
  addNormalMovesCore b.squares sq rank color

/-- Body of `Board::addJumpMoves` (it reads only the `squares` array): the
river jumps of the lion/tiger standing on `sq`, iterating the per-square
jump lookup. -/
def addJumpMovesCore (squares : Nat → Int) (sq rank color : Nat) : List Nat :=
  (sqJumps sq).filterMap fun e =>
    let t := e.toSq
    if color = LIGHT ∧ terrain t = TERRAIN_DEN_LIGHT then none
    else if color = DARK ∧ terrain t = TERRAIN_DEN_DARK then none
    else if e.blocking.any (fun w => squares w ≠ 0) then none
    else
      let target := squares t
      if target = 0 then some (encodeMove sq t)
      else if colorOf target = color then none
      else if canCapture rank target.natAbs color sq t then some (encodeMove sq t)
      else none

/-- `Board::addJumpMoves`. -/
def addJumpMoves (b : Board) (sq rank color : Nat) : List Nat :=
  addJumpMovesCore b.squares sq rank color

/-- Body of `Board::generateMoves` (it reads `squares`, the side to move
and the reverse index): for each live piece of the side to move (ranks 1..8
through the reverse index), its one-step moves, plus the jump moves for
lion and tiger. -/
def generateMovesCore (squares : Nat → Int) (stm : Nat) (pieceSq : Nat → Nat → Int) :
    List Nat :=
  (List.range' 1 8).flatMap fun rk =>
    let sqI := pieceSq stm rk
    if sqI < 0 then []
    else
      let sq := sqI.toNat
      addNormalMovesCore squares sq rk stm ++
        (if rk = LION ∨ rk = TIGER then addJumpMovesCore squares sq rk stm else [])

/-- `Board::generateMoves`. -/
def generateMoves (b : Board) : List Nat :=
  generateMovesCore b.squares b.sideToMove b.pieceSq

/-! ### Make / unmake (Board::makeMove and friends) -/

/-- `Board::makeMove`: save the undo record, remove a captured piece, move
the attacker, update the incremental hash, flip the side, push the hash. -/
def makeMove (Z : Zob) (b : Board) (m : Nat) : Board :=
  let f := moveFrom m
  let t := moveTo m
  let piece := b.squares f
  let rk := piece.natAbs
  let color := colorOf piece
  let captured := b.squares t
  let u : UndoInfo := ⟨captured, b.hash, b.halfmove, m⟩
  let pieceSq1 :=
    if captured ≠ 0 then upd2 b.pieceSq (colorOf captured) captured.natAbs (-1)
    else b.pieceSq
  let pieceCount1 :=
    if captured ≠ 0 then
      upd b.pieceCount (colorOf captured) (b.pieceCount (colorOf captured) - 1)
    else b.pieceCount
  let hash1 :=
    if captured ≠ 0 then b.hash ^^^ Z.piece t captured.natAbs (colorOf captured)
    else b.hash
  let halfmove1 := if captured ≠ 0 then 0 else b.halfmove + 1
  let hash2 := hash1 ^^^ Z.piece f rk color ^^^ Z.piece t rk color
  let hash3 := hash2 ^^^ Z.side
  { squares := fun s => if s = f then 0 else if s = t then piece else b.squares s
    sideToMove := 1 - b.sideToMove
    hash := hash3
    ply := b.ply + 1
    halfmove := halfmove1
    pieceSq := upd2 pieceSq1 color rk (Int.ofNat t)
    pieceCount := pieceCount1
    undoStack := upd b.undoStack b.ply u
    posHistory := upd b.posHistory b.histLen hash3
    histLen := b.histLen + 1 }

/-- `Board::unmakeMove`: pop the undo record, restore hash and halfmove,
move the piece back and revive any captured piece. -/
def unmakeMove (b : Board) : Board :=
  let ply1 := b.ply - 1
  let u := b.undoStack ply1
  let f := moveFrom u.move
  let t := moveTo u.move
  let piece := b.squares t
  let rk := piece.natAbs
  let color := colorOf piece
  let pieceSq1 := upd2 b.pieceSq color rk (Int.ofNat f)
  { squares := fun s => if s = t then u.captured else if s = f then piece else b.squares s
    sideToMove := 1 - b.sideToMove
    hash := u.hash
    ply := ply1
    halfmove := u.halfmove
    pieceSq :=
      if u.captured ≠ 0 then
        upd2 pieceSq1 (colorOf u.captured) u.captured.natAbs (Int.ofNat t)
      else pieceSq1
    pieceCount :=
      if u.captured ≠ 0 then
        upd b.pieceCount (colorOf u.captured) (b.pieceCount (colorOf u.captured) + 1)
      else b.pieceCount
    undoStack := b.undoStack
    posHistory := b.posHistory
    histLen := b.histLen - 1 }

/-- `Board::makeNullMove`: flip the side, toggle the side key, push the hash. -/
def makeNullMove (Z : Zob) (b : Board) : Board :=
  let u : UndoInfo := ⟨0, b.hash, b.halfmove, MOVE_NONE⟩
  let hash1 := b.hash ^^^ Z.side
  { b with
    sideToMove := 1 - b.sideToMove
    hash := hash1
    ply := b.ply + 1
    undoStack := upd b.undoStack b.ply u
    posHistory := upd b.posHistory b.histLen hash1
    histLen := b.histLen + 1 }

/-- `Board::unmakeNullMove`. -/
def unmakeNullMove (b : Board) : Board :=
  let ply1 := b.ply - 1
  let u := b.undoStack ply1
  { b with
    ply := ply1
    histLen := b.histLen - 1
    sideToMove := 1 - b.sideToMove
    hash := u.hash
    halfmove := u.halfmove }

/-! ### Repetition detection (Board::isRepetition) -/

/-- The loop of `Board::isRepetition`: scan indices `i, i-2, i-4, ...` of the
position history, counting entries equal to the current hash; answer true as
soon as two are found.  (The C loop condition `i >= 0` with step `i -= 2`
is rendered as structural recursion: it continues exactly while `i ≥ 2`.) -/
def repLoop (ph : Nat → Nat) (h : Nat) (i cnt : Nat) : Bool :=
  let c := if ph i = h then cnt + 1 else cnt
  if 2 ≤ c then true
  else
    match i with
    | 0 => false
    | 1 => false
    | i2 + 2 => repLoop ph h i2 c

/-- `Board::isRepetition`: false when fewer than 5 history entries,
otherwise run the scan from index `histLen - 3`. -/
def isRepetition (b : Board) : Bool :=
  if b.histLen < 5 then false
  else repLoop b.posHistory b.hash (b.histLen - 3) 0

/-! ### Game over (Board::checkGameOver) -/

/-- `Board::checkGameOver`: -1 when an opponent piece stands on the
side-to-move's own den or the side to move has no pieces; +1 when the
opponent has no pieces; 0 otherwise. -/
def checkGameOver (b : Board) : Int :=
  let opp := 1 - b.sideToMove
  let ourDen := if b.sideToMove = LIGHT then DEN_LIGHT_SQ else DEN_DARK_SQ
  if b.squares ourDen ≠ 0 ∧ colorOf (b.squares ourDen) = opp then -1
  else if b.pieceCount b.sideToMove = 0 then -1
  else if b.pieceCount opp = 0 then 1
  else 0

/-! ### FEN parsing (Board::setFEN) and the initial position (Board::init) -/

/-- `charToRank` from types.h: R C D W P T L E (case-insensitive) to 1..8,
anything else to 0. -/
def charToRank (ch : Char) : Nat :=
  let c := ch.toUpper
  if c = 'R' then 1 else if c = 'C' then 2 else if c = 'D' then 3
  else if c = 'W' then 4 else if c = 'P' then 5 else if c = 'T' then 6
  else if c = 'L' then 7 else if c = 'E' then 8 else 0

/-- The unconditional wipe `setFEN` performs before parsing: squares,
reverse index, counts, ply, halfmove clock and history length are cleared;
hash, undo stack and the history array contents are left as they were. -/
def clearForFEN (b : Board) : Board :=
  { b with
    squares := fun _ => 0
    pieceSq := fun _ _ => -1
    pieceCount := fun _ => 0
    ply := 0
    halfmove := 0
    histLen := 0 }

/-- The board-parsing loop of `setFEN`.  Returns (ok, state, remaining
characters); `ok = false` is the mid-parse `return false` on an unknown
piece letter, which leaves the partially built state behind. -/
def fenLoop (b : Board) (row : Int) (col : Nat) :
    List Char → Bool × Board × List Char
  | [] => (true, b, [])
  | ch :: rest =>
    if row < 0 then (true, b, ch :: rest)
    else if ch = '/' then fenLoop b (row - 1) 0 rest
    else if ch = ' ' then (true, b, rest)
    else if '1' ≤ ch ∧ ch ≤ '7' then
      fenLoop b row (col + (ch.toNat - '0'.toNat)) rest
    else
      let rk := charToRank ch
      if rk = 0 then (false, b, rest)
      else
        let color := if ch.isUpper then LIGHT else DARK
        let sq := makeSq row.toNat col
        let b1 := { b with
          squares := upd b.squares sq (if color = LIGHT then (rk : Int) else -(rk : Int))
          pieceSq := upd2 b.pieceSq color rk (Int.ofNat sq)
          pieceCount := upd b.pieceCount color (b.pieceCount color + 1) }
        fenLoop b1 row (col + 1) rest

/-- `Board::setFEN`: wipe the position, parse ranks 9..1, read the side to
move, recompute the hash and reset the history.  On a bad piece letter it
returns false with whatever state the parse had built by then. -/
def setFEN (Z : Zob) (b : Board) (fen : List Char) : Bool × Board :=
  match fenLoop (clearForFEN b) 8 0 fen with
  | (ok, b1, rest) =>
    if ok then
      let rest1 := rest.dropWhile (fun c => c = ' ')
      let stm := match rest1 with
        | c :: _ => if c = 'b' then DARK else LIGHT
        | [] => LIGHT
      let b2 := { b1 with sideToMove := stm }
      let h0 := computeHash Z b2
      (true, { b2 with
        hash := h0
        posHistory := upd b2.posHistory b2.histLen h0
        histLen := b2.histLen + 1 })
    else (false, b1)

/-- The piece placement of `Board::init` (signed square contents). -/
def initSquares : Nat → Int := fun s =>
  if s = 14 then 8 else if s = 6 then 7 else if s = 0 then 6
  else if s = 18 then 5 else if s = 16 then 4 else if s = 12 then 3
  else if s = 8 then 2 else if s = 20 then 1
  else if s = 48 then -8 else if s = 56 then -7 else if s = 62 then -6
  else if s = 44 then -5 else if s = 46 then -4 else if s = 50 then -3
  else if s = 54 then -2 else if s = 42 then -1 else 0

/-- The reverse index matching `initSquares`. -/
def initPieceSq : Nat → Nat → Int := fun c r =>
  if c = LIGHT then
    if r = 8 then 14 else if r = 7 then 6 else if r = 6 then 0
    else if r = 5 then 18 else if r = 4 then 16 else if r = 3 then 12
    else if r = 2 then 8 else if r = 1 then 20 else -1
  else if c = DARK then
    if r = 8 then 48 else if r = 7 then 56 else if r = 6 then 62
    else if r = 5 then 44 else if r = 4 then 46 else if r = 3 then 50
    else if r = 2 then 54 else if r = 1 then 42 else -1
  else -1

/-- The state `Board::init` builds before computing the hash. -/
def initBase : Board :=
  { squares := initSquares
    sideToMove := LIGHT
    hash := 0
    ply := 0
    halfmove := 0
    pieceSq := initPieceSq
    pieceCount := fun c => if c = 0 ∨ c = 1 then 8 else 0
    undoStack := fun _ => default
    posHistory := fun _ => 0
    histLen := 0 }

/-- `Board::init`: standard placement, Light to move, hash computed from
scratch and pushed as the single history entry. -/
def initBoard (Z : Zob) : Board :=
  let h0 := computeHash Z initBase
  { initBase with
    hash := h0
    posHistory := upd initBase.posHistory 0 h0
    histLen := 1 }

/-! ### Transposition-table mate-score adjustment (search.cpp) -/

/-- `Search::scoreToTT`. -/
def scoreToTT (score ply : Int) : Int :=
  if SCORE_MATE - MAX_PLY ≤ score then score + ply
  else if score ≤ -SCORE_MATE + MAX_PLY then score - ply
  else score

/-- `Search::scoreFromTT`. -/
def scoreFromTT (score ply : Int) : Int :=
  if SCORE_MATE - MAX_PLY ≤ score then score - ply
  else if score ≤ -SCORE_MATE + MAX_PLY then score + ply
  else score

/-! ### Auxiliary definitions used by the theorems below -/

/-- A concrete Zobrist bundle used to instantiate theorems at closed inputs
(the statements themselves hold for every bundle). -/
def zobTest : Zob := ⟨fun s r c => (s + 1) * (r + 1) * (c + 1), 12345⟩

/-- The capture rule in the specification's own formulation (section 4.C
rule 3): cross-terrain bar; water-vs-water capture permitted (both pieces
are necessarily Rats there); the enemy-trap override makes the defender's
effective rank 0 so that any attacker captures; Rat beats Elephant;
Elephant cannot capture Rat; otherwise attacker rank must reach the
defender's. -/
def specCaptureAllowed (attackerRank defenderRank attackerColor fromSq toSq : Nat) : Bool :=
  if isWater fromSq ≠ isWater toSq then false
  else if isWater fromSq ∧ isWater toSq then true
  else
    let defEff :=
      if (attackerColor = LIGHT ∧ terrain toSq = TERRAIN_TRAP_LIGHT) ∨
         (attackerColor = DARK ∧ terrain toSq = TERRAIN_TRAP_DARK) then 0
      else defenderRank
    if attackerRank = RAT ∧ defEff = ELEPHANT then true
    else if attackerRank = ELEPHANT ∧ defEff = RAT then false
    else decide (defEff ≤ attackerRank)

/-- The specification's losing condition for the side to move: an enemy
piece stands on the side-to-move's own den, or the side to move has no
pieces left. -/
def sideLost (b : Board) : Prop :=
  (b.squares (if b.sideToMove = LIGHT then DEN_LIGHT_SQ else DEN_DARK_SQ) ≠ 0 ∧
    colorOf (b.squares (if b.sideToMove = LIGHT then DEN_LIGHT_SQ else DEN_DARK_SQ)) =
      1 - b.sideToMove) ∨
  b.pieceCount b.sideToMove = 0

instance (b : Board) : Decidable (sideLost b) := by
  unfold sideLost; infer_instance

/-- The position parsed from the empty-board FEN text (accepted by
`setFEN`), on which both piece counts are zero. -/
def emptyBoardDemo : Board :=
  (setFEN zobTest (initBoard zobTest) "7/7/7/7/7/7/7/7/7 w".toList).2

/-- The number of history entries equal to `h` among indices
`i, i - 2, i - 4, ...` (the exhaustive count that `repLoop` short-circuits). -/
def matchCount (ph : Nat → Nat) (h : Nat) (i : Nat) : Nat :=
  (if ph i = h then 1 else 0) +
    match i with
    | 0 => 0
    | 1 => 0
    | i2 + 2 => matchCount ph h i2

/-- A history of hashes along a cycle of reversible moves: the start
position (hash 10) recurs every four plies; its third occurrence is at
index 8. -/
def cycHist : Nat → Nat := fun i => [10, 20, 30, 40, 10, 20, 30, 40, 10].getD i 0

/-- The position state after `n` entries of the cyclic history (only the
fields read by `isRepetition` matter). -/
def repDemo (n : Nat) : Board :=
  { squares := fun _ => 0
    sideToMove := 0
    hash := cycHist (n - 1)
    ply := n - 1
    halfmove := 0
    pieceSq := fun _ _ => -1
    pieceCount := fun _ => 0
    undoStack := fun _ => default
    posHistory := cycHist
    histLen := n }

/-- Specification invariant 5: every water square is empty or holds a Rat. -/
def waterInv (b : Board) : Prop :=
  ∀ s, s < NUM_SQ → isWater s = true → b.squares s = 0 ∨ (b.squares s).natAbs = RAT

instance (b : Board) : Decidable (waterInv b) := by
  unfold waterInv; infer_instance

/-- A Rat (of either color) stands on square `w`. -/
def ratAt (b : Board) (w : Nat) : Prop :=
  b.squares w ≠ 0 ∧ (b.squares w).natAbs = RAT

/-- `s` lies strictly between `f` and `t` on their shared row or column. -/
def strictBetween (f t s : Nat) : Prop :=
  (sqRow f = sqRow t ∧ sqRow s = sqRow f ∧
    (sqCol f < sqCol s ∧ sqCol s < sqCol t ∨ sqCol t < sqCol s ∧ sqCol s < sqCol f)) ∨
  (sqCol f = sqCol t ∧ sqCol s = sqCol f ∧
    (sqRow f < sqRow s ∧ sqRow s < sqRow t ∨ sqRow t < sqRow s ∧ sqRow s < sqRow f))

instance (f t s : Nat) : Decidable (strictBetween f t s) := by
  unfold strictBetween; infer_instance

/-- Scenario S4 of the specification: Light Lion on a3 (square 14), Dark
Rat on the water square b4 (square 22), nothing else. -/
def s4Board : Board :=
  { squares := fun s => if s = 14 then 7 else if s = 22 then -1 else 0
    sideToMove := LIGHT
    hash := 0
    ply := 0
    halfmove := 0
    pieceSq := fun c r =>
      if c = 0 ∧ r = 7 then 14 else if c = 1 ∧ r = 1 then 22 else -1
    pieceCount := fun c => if c = 0 ∨ c = 1 then 1 else 0
    undoStack := fun _ => default
    posHistory := fun _ => 0
    histLen := 1 }

/-- The well-formedness a reachable position satisfies (specification
invariants: a valid side to move, and agreement of `board`, `pieceSq` and
the rank range in both directions). -/
def wf (b : Board) : Prop :=
  b.sideToMove < 2 ∧
  (∀ c, c < 2 → ∀ r, r < 9 → 1 ≤ r → 0 ≤ b.pieceSq c r →
    ((b.pieceSq c r).toNat < NUM_SQ ∧
      b.squares (b.pieceSq c r).toNat = (if c = 0 then (r : Int) else -(r : Int)))) ∧
  (∀ s, s < NUM_SQ → b.squares s ≠ 0 →
    (1 ≤ (b.squares s).natAbs ∧ (b.squares s).natAbs ≤ 8 ∧
      b.pieceSq (colorOf (b.squares s)) (b.squares s).natAbs = (s : Int)))

instance (b : Board) : Decidable (wf b) := by
  unfold wf; infer_instance

/-! ### Helper lemmas -/

theorem moveFrom_encode {f t : Nat} (hf : f < 64) (ht : t < 64) :
    moveFrom (encodeMove f t) = f := by
  revert hf ht
  have h : ∀ f < 64, ∀ t < 64, moveFrom (encodeMove f t) = f := by decide
  exact fun hf ht => h f hf t ht

theorem moveTo_encode {f t : Nat} (hf : f < 64) (ht : t < 64) :
    moveTo (encodeMove f t) = t := by
  revert hf ht
  have h : ∀ f < 64, ∀ t < 64, moveTo (encodeMove f t) = t := by decide
  exact fun hf ht => h f hf t ht

/-! ## C3 — capture rule -/

/-- C3: `Board::canCapture` decides captures exactly as the specification's
capture rule does, for every attacker rank, defender rank, attacker color,
from-square and to-square. -/
theorem canCapture_matches_spec (a d c f t : Nat) :
    canCapture a d c f t = specCaptureAllowed a d c f t := by
  unfold canCapture specCaptureAllowed
  by_cases hw : isWater f ≠ isWater t
  · simp [hw]
  · by_cases hww : isWater f ∧ isWater t
    · simp [hw, hww]
    · by_cases hL : c = LIGHT ∧ terrain t = TERRAIN_TRAP_LIGHT
      · simp [hw, hww, hL, RAT, ELEPHANT]
      · by_cases hD : c = DARK ∧ terrain t = TERRAIN_TRAP_DARK
        · simp [hw, hww, hL, hD, RAT, ELEPHANT]
        · simp [hw, hww, hL, hD]

/-! ## C5 — game status -/

/-- C5 counterexample: on the empty-board position (which `setFEN`
accepts), the opponent's piece count is zero yet `checkGameOver` reports
-1 (side to move LOST), not +1 (WON) — refuting "it reports side-to-move
WON exactly when pieceCount[opponent] == 0". -/
theorem checkGameOver_won_iff_fails :
    (setFEN zobTest (initBoard zobTest) "7/7/7/7/7/7/7/7/7 w".toList).1 = true ∧
    emptyBoardDemo.pieceCount (1 - emptyBoardDemo.sideToMove) = 0 ∧
    checkGameOver emptyBoardDemo ≠ 1 ∧
    checkGameOver emptyBoardDemo = -1 :=
  ⟨rfl, rfl, by decide, rfl⟩

/-- C5 (amended): `checkGameOver` reports -1 exactly under the losing
condition (enemy on own den, or side to move out of pieces); it reports +1
exactly when the opponent is out of pieces AND the losing condition does
not hold; otherwise it reports 0 (ongoing). -/
theorem checkGameOver_status (b : Board) (hstm : b.sideToMove < 2) :
    (checkGameOver b = -1 ↔ sideLost b) ∧
    (checkGameOver b = 1 ↔ b.pieceCount (1 - b.sideToMove) = 0 ∧ ¬ sideLost b) ∧
    (checkGameOver b = 0 ↔ ¬ sideLost b ∧ b.pieceCount (1 - b.sideToMove) ≠ 0) := by
  unfold checkGameOver sideLost
  split_ifs <;> simp_all <;> omega

/-- Witness for C5 at the initial position (game ongoing there). -/
theorem checkGameOver_status_check :
    (initBoard zobTest).sideToMove < 2 ∧
    (checkGameOver (initBoard zobTest) = 0 ↔
      ¬ sideLost (initBoard zobTest) ∧
      (initBoard zobTest).pieceCount (1 - (initBoard zobTest).sideToMove) ≠ 0) :=
  ⟨by decide, (checkGameOver_status (initBoard zobTest) (by decide)).2.2⟩

/-! ## C7 — 24 first moves from the initial position -/

set_option maxRecDepth 4000 in
/-- C7: from the standard initial position built by `Board::init`,
`generateMoves` produces exactly 24 moves. -/
theorem generateMoves_start_count (Z : Zob) :
    (generateMoves (initBoard Z)).length = 24 := by
  show (generateMovesCore initSquares LIGHT initPieceSq).length = 24
  rfl

/-! ## C8 — transposition-table mate-score round trip -/

/-- C8: for every score within `±SCORE_MATE` and every ply in
`[0, MAX_PLY)`, `scoreFromTT` inverts `scoreToTT` at the same ply. -/
theorem tt_mate_score_roundtrip (s p : Int)
    (hs1 : -SCORE_MATE ≤ s) (hs2 : s ≤ SCORE_MATE)
    (hp1 : 0 ≤ p) (hp2 : p < MAX_PLY) :
    scoreFromTT (scoreToTT s p) p = s := by
  unfold scoreToTT scoreFromTT SCORE_MATE MAX_PLY at *
  split_ifs <;> omega

/-- Witness for C8 at the concrete mate score 28950 and ply 5. -/
theorem tt_mate_score_roundtrip_check :
    (-SCORE_MATE ≤ (28950 : Int) ∧ (28950 : Int) ≤ SCORE_MATE ∧
      (0 : Int) ≤ 5 ∧ (5 : Int) < MAX_PLY) ∧
    scoreFromTT (scoreToTT 28950 5) 5 = 28950 :=
  ⟨by decide, tt_mate_score_roundtrip 28950 5 (by decide) (by decide) (by decide) (by decide)⟩

/-! ## C9 — setFEN is not atomic on malformed input -/

/-- C9: the code clears the position before validating, so rejecting the
malformed FEN text "X" from the initial position returns false with the
piece counts (and board) already wiped — the prior state is not preserved. -/
theorem setFEN_reject_mutates (Z : Zob) :
    (setFEN Z (initBoard Z) "X".toList).1 = false ∧
    (setFEN Z (initBoard Z) "X".toList).2.pieceCount LIGHT = 0 ∧
    (setFEN Z (initBoard Z) "X".toList).2.squares 14 = 0 ∧
    (initBoard Z).pieceCount LIGHT = 8 ∧
    (initBoard Z).squares 14 = 8 :=
  ⟨rfl, rfl, rfl, rfl, rfl⟩

/-! ## C10 — setFEN performs no water-placement validation -/

/-- C10: `setFEN` accepts a text placing a (Light) Elephant on the water
square b4 (index 23), returning true and leaving the non-Rat piece standing
on water — a position violating the water invariant. -/
theorem setFEN_accepts_piece_on_water (Z : Zob) :
    (setFEN Z (initBoard Z) "7/7/7/7/7/2E4/7/7/7 w".toList).1 = true ∧
    (setFEN Z (initBoard Z) "7/7/7/7/7/2E4/7/7/7 w".toList).2.squares 23 = 8 ∧
    isWater 23 = true ∧
    (8 : Int).natAbs ≠ RAT :=
  ⟨rfl, rfl, rfl, by decide⟩


/-! ## C6 — repetition detection -/

lemma repLoop_true_iff (ph : Nat → Nat) (h : Nat) :
    ∀ i cnt, repLoop ph h i cnt = true ↔ 2 ≤ cnt + matchCount ph h i := by
  intro i
  induction i using Nat.strong_induction_on with
  | _ i IH =>
    intro cnt
    rcases i with - | i1
    · rw [repLoop, matchCount]
      by_cases hm : ph 0 = h <;> simp [hm]
    · rcases i1 with - | i2
      · rw [repLoop, matchCount]
        by_cases hm : ph 1 = h <;> simp [hm]
      · rw [repLoop, matchCount]
        by_cases hm : ph (i2 + 2) = h
        · by_cases hc : 2 ≤ cnt + 1
          · simp [hm, hc]
            try omega
          · simp [hm, hc, IH i2 (by omega)]
            try omega
        · by_cases hc : 2 ≤ cnt
          · simp [hm, hc]
            try omega
          · simp [hm, hc, IH i2 (by omega)]
            try omega

lemma matchCount_le_one (ph : Nat → Nat) (h : Nat) (i : Nat) (hi : i ≤ 1) :
    matchCount ph h i ≤ 1 := by
  rcases i with - | i1
  · rw [matchCount]; by_cases hm : ph 0 = h <;> simp [hm]
  · rcases i1 with - | i2
    · rw [matchCount]; by_cases hm : ph 1 = h <;> simp [hm]
    · omega

lemma matchCount_eq_countP (ph : Nat → Nat) (h : Nat) :
    ∀ i, matchCount ph h i =
      (List.range (i + 1)).countP (fun j => decide ((i - j) % 2 = 0 ∧ ph j = h)) := by
  intro i
  induction i using Nat.strong_induction_on with
  | _ i IH =>
    rcases i with - | i1
    · rw [matchCount]
      by_cases hm : ph 0 = h <;> simp [List.range_succ, List.countP_cons, hm]
    · rcases i1 with - | i2
      · rw [matchCount]
        by_cases hm : ph 1 = h <;>
          simp [List.range_succ, List.countP_cons, List.countP_nil, hm]
      · rw [matchCount, IH i2 (by omega)]
        have e1 : List.range (i2 + 2 + 1) = List.range (i2 + 2) ++ [i2 + 2] := by
          simpa using List.range_succ (i2 + 2)
        have e2 : List.range (i2 + 2) = List.range (i2 + 1) ++ [i2 + 1] := by
          simpa using List.range_succ (i2 + 1)
        rw [e1, e2, List.countP_append, List.countP_append]
        have hcongr : (List.range (i2 + 1)).countP
              (fun j => decide ((i2 + 2 - j) % 2 = 0 ∧ ph j = h))
            = (List.range (i2 + 1)).countP
              (fun j => decide ((i2 - j) % 2 = 0 ∧ ph j = h)) := by
          apply List.countP_congr
          intro a ha
          have haa : a < i2 + 1 := List.mem_range.mp ha
          simp only [decide_eq_true_eq]
          constructor
          · rintro ⟨h1, h2⟩; exact ⟨by omega, h2⟩
          · rintro ⟨h1, h2⟩; exact ⟨by omega, h2⟩
        rw [hcongr]
        have hmid : ([i2 + 1] : List Nat).countP
            (fun j => decide ((i2 + 2 - j) % 2 = 0 ∧ ph j = h)) = 0 := by
          simp [List.countP_cons]
        have hlast : ([i2 + 2] : List Nat).countP
            (fun j => decide ((i2 + 2 - j) % 2 = 0 ∧ ph j = h))
            = if ph (i2 + 2) = h then 1 else 0 := by
          by_cases hm : ph (i2 + 2) = h <;> simp [List.countP_cons, hm]
        rw [hmid, hlast]
        by_cases hm : ph (i2 + 2) = h
        · have hm2 : ph i2.succ.succ = h := hm
          simp [hm, hm2]
          omega
        · have hm2 : ¬ ph i2.succ.succ = h := hm
          simp [hm, hm2]

/-- C6: `isRepetition` is true exactly when the current hash has appeared
at least twice previously in the history stack at entries of the same side
to move (every second prior entry); and along a cyclic history of
reversible moves it first becomes true exactly at the third occurrence of
the repeated position. -/
theorem isRepetition_iff_threefold :
    (∀ b : Board, isRepetition b = true ↔
      2 ≤ (List.range b.histLen).countP (fun j =>
        decide (j + 3 ≤ b.histLen ∧ (b.histLen - 3 - j) % 2 = 0 ∧
          b.posHistory j = b.hash))) ∧
    ((List.range 10).all fun n => isRepetition (repDemo n) == decide (n = 9)) = true := by
  constructor
  · intro b
    by_cases h3 : 3 ≤ b.histLen
    · obtain ⟨k, hk⟩ : ∃ k, b.histLen = k + 3 := ⟨b.histLen - 3, by omega⟩
      have hsplit : (List.range b.histLen).countP (fun j =>
            decide (j + 3 ≤ b.histLen ∧ (b.histLen - 3 - j) % 2 = 0 ∧
              b.posHistory j = b.hash))
          = matchCount b.posHistory b.hash k := by
        rw [matchCount_eq_countP, hk]
        have e1 : List.range (k + 3) = List.range (k + 2) ++ [k + 2] := by
          simpa using List.range_succ (k + 2)
        have e2 : List.range (k + 2) = List.range (k + 1) ++ [k + 1] := by
          simpa using List.range_succ (k + 1)
        rw [e1, e2, List.countP_append, List.countP_append]
        have hm1 : ([k + 1] : List Nat).countP (fun j =>
            decide (j + 3 ≤ k + 3 ∧ (k + 3 - 3 - j) % 2 = 0 ∧
              b.posHistory j = b.hash)) = 0 := by
          simp only [List.countP_cons, List.countP_nil]
          simp only [decide_eq_true_eq]
          have : ¬ (k + 1 + 3 ≤ k + 3) := by omega
          simp [this]
        have hm2 : ([k + 2] : List Nat).countP (fun j =>
            decide (j + 3 ≤ k + 3 ∧ (k + 3 - 3 - j) % 2 = 0 ∧
              b.posHistory j = b.hash)) = 0 := by
          simp only [List.countP_cons, List.countP_nil]
          simp only [decide_eq_true_eq]
          have : ¬ (k + 2 + 3 ≤ k + 3) := by omega
          simp [this]
        have hcongr : (List.range (k + 1)).countP (fun j =>
              decide (j + 3 ≤ k + 3 ∧ (k + 3 - 3 - j) % 2 = 0 ∧
                b.posHistory j = b.hash))
            = (List.range (k + 1)).countP (fun j =>
              decide ((k - j) % 2 = 0 ∧ b.posHistory j = b.hash)) := by
          apply List.countP_congr
          intro a ha
          have haa : a < k + 1 := List.mem_range.mp ha
          simp only [decide_eq_true_eq]
          constructor
          · rintro ⟨h1, h2, hp⟩
            refine ⟨?_, hp⟩
            omega
          · rintro ⟨h1, hp⟩
            refine ⟨by omega, ?_, hp⟩
            omega
        rw [hm1, hm2, hcongr]
        omega
      rw [hsplit]
      by_cases h5 : b.histLen < 5
      · have hk2 : k ≤ 1 := by omega
        have hle := matchCount_le_one b.posHistory b.hash k hk2
        simp [isRepetition, h5]
        omega
      · have harg : b.histLen - 3 = k := by omega
        simp only [isRepetition, if_neg h5, harg]
        rw [repLoop_true_iff]
        omega
    · have h5 : b.histLen < 5 := by omega
      have hzero : (List.range b.histLen).countP (fun j =>
          decide (j + 3 ≤ b.histLen ∧ (b.histLen - 3 - j) % 2 = 0 ∧
            b.posHistory j = b.hash)) = 0 := by
        rw [List.countP_eq_zero]
        intro a ha
        have haa : a < b.histLen := List.mem_range.mp ha
        simp only [decide_eq_true_eq]
        rintro ⟨h1, -, -⟩
        omega
      simp only [isRepetition, if_pos h5]
      rw [hzero]
      simp
  · decide

/-! ## C4 — river jumps -/

lemma jumpTable_blocking_water :
    ∀ e ∈ jumpTable, ∀ w ∈ e.blocking, isWater w = true ∧ w < NUM_SQ := by decide

/-- C4: a river jump is generated exactly under the specification's rule.
First conjunct: each jump edge's blocking list is exactly the water squares
strictly between launch and landing on their straight line.  Second: on any
position satisfying the water invariant, `addJumpMoves` emits a move iff a
jump edge matches, no blocking water square holds a Rat, and the landing
square passes the own-den / friendly-occupancy / capture rules.  Third:
scenario S4 — with Light Lion at a3 and Dark Rat at b4, `generateMoves`
does not contain a3d3. -/
theorem jump_generation_matches_spec :
    (∀ e ∈ jumpTable, ∀ s, s < NUM_SQ →
      (s ∈ e.blocking ↔ (isWater s = true ∧ strictBetween e.fromSq e.toSq s))) ∧
    (∀ (b : Board) (sq rank color m : Nat), waterInv b →
      (m ∈ addJumpMoves b sq rank color ↔
        ∃ e, e ∈ jumpTable ∧ e.fromSq = sq ∧ m = encodeMove sq e.toSq ∧
          ¬(color = LIGHT ∧ terrain e.toSq = TERRAIN_DEN_LIGHT) ∧
          ¬(color = DARK ∧ terrain e.toSq = TERRAIN_DEN_DARK) ∧
          (∀ w ∈ e.blocking, ¬ ratAt b w) ∧
          (b.squares e.toSq = 0 ∨ (colorOf (b.squares e.toSq) ≠ color ∧
            canCapture rank (b.squares e.toSq).natAbs color sq e.toSq = true)))) ∧
    encodeMove 14 17 ∉ generateMoves s4Board := by
  refine ⟨by decide, ?_, by decide⟩
  intro b sq rank color m hw
  unfold addJumpMoves addJumpMovesCore
  rw [List.mem_filterMap]
  constructor
  · rintro ⟨e, he, hbody⟩
    have heT : e ∈ jumpTable ∧ e.fromSq = sq := by
      unfold sqJumps at he
      have h := List.mem_filter.mp he
      exact ⟨h.1, by simpa using h.2⟩
    dsimp only at hbody
    by_cases h1 : color = LIGHT ∧ terrain e.toSq = TERRAIN_DEN_LIGHT
    · rw [if_pos h1] at hbody; cases hbody
    rw [if_neg h1] at hbody
    by_cases h2 : color = DARK ∧ terrain e.toSq = TERRAIN_DEN_DARK
    · rw [if_pos h2] at hbody; cases hbody
    rw [if_neg h2] at hbody
    by_cases h3 : (e.blocking.any fun w => decide (b.squares w ≠ 0)) = true
    · rw [if_pos h3] at hbody; cases hbody
    rw [if_neg h3] at hbody
    have hblock : ∀ w ∈ e.blocking, ¬ ratAt b w := by
      intro w hwm hrat
      apply h3
      rw [List.any_eq_true]
      exact ⟨w, hwm, by simpa using hrat.1⟩
    by_cases h4 : b.squares e.toSq = 0
    · rw [if_pos h4] at hbody
      have hm := Option.some.inj hbody
      exact ⟨e, heT.1, heT.2, hm.symm, h1, h2, hblock, Or.inl h4⟩
    rw [if_neg h4] at hbody
    by_cases h5 : colorOf (b.squares e.toSq) = color
    · rw [if_pos h5] at hbody; cases hbody
    rw [if_neg h5] at hbody
    by_cases h6 : canCapture rank (b.squares e.toSq).natAbs color sq e.toSq = true
    · rw [if_pos h6] at hbody
      have hm := Option.some.inj hbody
      exact ⟨e, heT.1, heT.2, hm.symm, h1, h2, hblock, Or.inr ⟨h5, h6⟩⟩
    · rw [if_neg h6] at hbody; cases hbody
  · rintro ⟨e, he1, he2, hm, h1, h2, hblock, htarget⟩
    refine ⟨e, ?_, ?_⟩
    · unfold sqJumps
      exact List.mem_filter.mpr ⟨he1, by simp [he2]⟩
    dsimp only
    rw [if_neg h1, if_neg h2]
    have h3 : (e.blocking.any fun w => decide (b.squares w ≠ 0)) = false := by
      rw [List.any_eq_false]
      intro w hwm
      obtain ⟨hww, hwlt⟩ := jumpTable_blocking_water e he1 w hwm
      have hz : b.squares w = 0 := by
        rcases hw w hwlt hww with hz | hr
        · exact hz
        · by_cases hz2 : b.squares w = 0
          · exact hz2
          · exact absurd ⟨hz2, hr⟩ (hblock w hwm)
      simp [hz]
    rw [if_neg (by rw [h3]; exact Bool.false_ne_true)]
    by_cases hz : b.squares e.toSq = 0
    · rw [if_pos hz, hm]
    · rw [if_neg hz]
      rcases htarget with hz' | ⟨hcol, hcap⟩
      · contradiction
      · rw [if_neg hcol, if_pos hcap, hm]

/-- Witness for C4: the jump characterization instantiated on the S4
position (which satisfies the water invariant). -/
theorem jump_generation_matches_spec_check :
    waterInv s4Board ∧
    (encodeMove 14 17 ∈ addJumpMoves s4Board 14 LION LIGHT ↔
      ∃ e, e ∈ jumpTable ∧ e.fromSq = 14 ∧
        encodeMove 14 17 = encodeMove 14 e.toSq ∧
        ¬(LIGHT = LIGHT ∧ terrain e.toSq = TERRAIN_DEN_LIGHT) ∧
        ¬(LIGHT = DARK ∧ terrain e.toSq = TERRAIN_DEN_DARK) ∧
        (∀ w ∈ e.blocking, ¬ ratAt s4Board w) ∧
        (s4Board.squares e.toSq = 0 ∨ (colorOf (s4Board.squares e.toSq) ≠ LIGHT ∧
          canCapture LION (s4Board.squares e.toSq).natAbs LIGHT 14 e.toSq = true))) :=
  ⟨by decide,
   jump_generation_matches_spec.2.1 s4Board 14 LION LIGHT (encodeMove 14 17) (by decide)⟩


/-! ## Helper lemmas for C1 and C2 -/

lemma jumpTable_bounds :
    ∀ e ∈ jumpTable, e.fromSq < NUM_SQ ∧ e.toSq < NUM_SQ ∧ e.fromSq ≠ e.toSq := by
  decide

lemma generateMoves_mem (b : Board) (m : Nat) (hwf : wf b) (hm : m ∈ generateMoves b) :
    ∃ f t, m = encodeMove f t ∧ f < NUM_SQ ∧ t < NUM_SQ ∧ f ≠ t ∧
      b.squares f ≠ 0 ∧
      b.pieceSq (colorOf (b.squares f)) (b.squares f).natAbs = (f : Int) := by
  obtain ⟨hstm, hwf2, hwf3⟩ := hwf
  unfold generateMoves generateMovesCore at hm
  rw [List.mem_flatMap] at hm
  obtain ⟨rk, hrk, hm2⟩ := hm
  rw [List.mem_range'_1] at hrk
  by_cases hneg : b.pieceSq b.sideToMove rk < 0
  · rw [if_pos hneg] at hm2
    cases hm2
  rw [if_neg hneg] at hm2
  have hnn : 0 ≤ b.pieceSq b.sideToMove rk := by omega
  obtain ⟨hlt, hsq⟩ := hwf2 b.sideToMove hstm rk (by omega) (by omega) hnn
  set f := (b.pieceSq b.sideToMove rk).toNat with hfdef
  have hpf0 : b.squares f ≠ 0 := by
    rw [hsq]
    split_ifs <;> omega
  have hnatabs : (b.squares f).natAbs = rk := by
    rw [hsq]
    split_ifs <;> simp
  have hcol : colorOf (b.squares f) = b.sideToMove := by
    rw [hsq]
    unfold colorOf LIGHT DARK
    split_ifs <;> omega
  have hps : b.pieceSq (colorOf (b.squares f)) (b.squares f).natAbs = (f : Int) := by
    rw [hcol, hnatabs, hfdef, Int.toNat_of_nonneg hnn]
  rw [List.mem_append] at hm2
  rcases hm2 with hnormal | hjump
  · unfold addNormalMovesCore at hnormal
    rw [List.mem_filterMap] at hnormal
    obtain ⟨d, hd, hbody⟩ := hnormal
    dsimp only at hbody
    by_cases hstep : canStep f d = true
    swap
    · rw [if_neg hstep] at hbody; cases hbody
    rw [if_pos hstep] at hbody
    have hdmem : d = 7 ∨ d = -7 ∨ d = 1 ∨ d = -1 := by
      simp [DIRS] at hd
      tauto
    have hbounds : 0 ≤ (f : Int) + d ∧ (f : Int) + d < 63 := by
      simp only [canStep] at hstep
      by_cases hO : ((f : Int) + d < 0 ∨ (63 : Int) ≤ (f : Int) + d)
      · rw [if_pos hO] at hstep
        simp at hstep
      · push_neg at hO
        exact ⟨by omega, by omega⟩
    refine ⟨f, ((f : Int) + d).toNat, ?_, by omega, by unfold NUM_SQ; omega, ?_, hpf0, hps⟩
    · split_ifs at hbody <;> simp_all
    · rcases hdmem with h | h | h | h <;> omega
  · by_cases hlj : rk = LION ∨ rk = TIGER
    swap
    · rw [if_neg hlj] at hjump; cases hjump
    rw [if_pos hlj] at hjump
    unfold addJumpMovesCore at hjump
    rw [List.mem_filterMap] at hjump
    obtain ⟨e, he, hbody⟩ := hjump
    unfold sqJumps at he
    have heT := List.mem_filter.mp he
    have hef : e.fromSq = f := by simpa using heT.2
    obtain ⟨hb1, hb2, hb3⟩ := jumpTable_bounds e heT.1
    refine ⟨f, e.toSq, ?_, by omega, hb2, by omega, hpf0, hps⟩
    dsimp only at hbody
    split_ifs at hbody <;> simp_all

lemma upd_apply {α : Type} (f : Nat → α) (i : Nat) (v : α) (j : Nat) :
    upd f i v j = if j = i then v else f j := rfl

lemma upd2_apply {α : Type} (f : Nat → Nat → α) (i j : Nat) (v : α) (a b : Nat) :
    upd2 f i j v a b = if a = i ∧ b = j then v else f a b := rfl

lemma make_unmake_aux (Z : Zob) (b : Board) (f t : Nat)
    (hflt : f < NUM_SQ) (htlt : t < NUM_SQ) (hft : f ≠ t)
    (hpf0 : b.squares f ≠ 0)
    (hps : b.pieceSq (colorOf (b.squares f)) (b.squares f).natAbs = (f : Int))
    (hpt : b.squares t ≠ 0 → b.pieceSq (colorOf (b.squares t)) (b.squares t).natAbs = (t : Int)) :
    (∀ s, (unmakeMove (makeMove Z b (encodeMove f t))).squares s = b.squares s) ∧
    (∀ c r, (unmakeMove (makeMove Z b (encodeMove f t))).pieceSq c r = b.pieceSq c r) ∧
    (∀ c, (unmakeMove (makeMove Z b (encodeMove f t))).pieceCount c = b.pieceCount c) ∧
    (unmakeMove (makeMove Z b (encodeMove f t))).hash = b.hash ∧
    (unmakeMove (makeMove Z b (encodeMove f t))).halfmove = b.halfmove ∧
    (unmakeMove (makeMove Z b (encodeMove f t))).histLen = b.histLen := by
  have hf64 : f < 64 := by unfold NUM_SQ at hflt; omega
  have ht64 : t < 64 := by unfold NUM_SQ at htlt; omega
  have hmf : moveFrom (encodeMove f t) = f := moveFrom_encode hf64 ht64
  have hmt : moveTo (encodeMove f t) = t := moveTo_encode hf64 ht64
  have htf : t ≠ f := Ne.symm hft
  by_cases hc : b.squares t = 0
  · refine ⟨?_, ?_, ?_, ?_, ?_, ?_⟩ <;>
      [skip; skip; intro c; skip; skip; skip] <;>
      [intro s; intro c r; skip; skip; skip; skip] <;>
      simp only [unmakeMove, makeMove, hmf, hmt, upd_apply, upd2_apply,
        Nat.add_sub_cancel, eq_self_iff_true, if_true, if_false, ite_true, ite_false,
        ne_eq, hc, not_false_eq_true, htf, not_true_eq_false] <;>
      split_ifs <;> simp_all
  · have hpt2 := hpt hc
    refine ⟨?_, ?_, ?_, ?_, ?_, ?_⟩
    · intro s
      simp only [unmakeMove, makeMove, hmf, hmt, upd_apply, upd2_apply,
        Nat.add_sub_cancel, eq_self_iff_true, if_true, if_false, ite_true, ite_false,
        ne_eq, hc, not_false_eq_true, htf, not_true_eq_false]
      split_ifs <;> simp_all
    · intro c r
      simp only [unmakeMove, makeMove, hmf, hmt, upd_apply, upd2_apply,
        Nat.add_sub_cancel, eq_self_iff_true, if_true, if_false, ite_true, ite_false,
        ne_eq, hc, not_false_eq_true, htf, not_true_eq_false]
      split_ifs <;> simp_all
    · intro c
      simp only [unmakeMove, makeMove, hmf, hmt, upd_apply, upd2_apply,
        Nat.add_sub_cancel, eq_self_iff_true, if_true, if_false, ite_true, ite_false,
        ne_eq, hc, not_false_eq_true, htf, not_true_eq_false]
      split_ifs <;> simp_all
    · simp [unmakeMove, makeMove, hmf, hmt, upd_apply, upd2_apply, hc]
    · simp [unmakeMove, makeMove, hmf, hmt, upd_apply, upd2_apply, hc]
    · simp [unmakeMove, makeMove, hmf, hmt, upd_apply, upd2_apply, hc]

lemma xor_lcomm (a b c : Nat) : a ^^^ (b ^^^ c) = b ^^^ (a ^^^ c) := by
  rw [← Nat.xor_assoc, Nat.xor_comm a b, Nat.xor_assoc]

lemma xor_rearrange (a b : Nat) : a = b ^^^ (a ^^^ b) := by
  rw [Nat.xor_comm a b, ← Nat.xor_assoc, Nat.xor_self, Nat.zero_xor]

lemma computeHash_eq (Z : Zob) (b : Board) :
    computeHash Z b =
      ((List.range NUM_SQ).foldl (fun h s => h ^^^ pieceKey Z b s) 0) ^^^
        (if b.sideToMove = DARK then Z.side else 0) := by
  unfold computeHash
  have hfold : ∀ (l : List Nat) (a : Nat),
      l.foldl (fun h s =>
        if b.squares s ≠ 0 then h ^^^ Z.piece s (b.squares s).natAbs (colorOf (b.squares s))
        else h) a = l.foldl (fun h s => h ^^^ pieceKey Z b s) a := by
    intro l
    induction l with
    | nil => intro a; rfl
    | cons x xs ih =>
      intro a
      simp only [List.foldl_cons, ih]
      congr 1
      unfold pieceKey
      split_ifs <;> simp
  rw [hfold]
  split_ifs <;> simp

lemma foldl_xor_shift (g : Nat → Nat) (l : List Nat) (a : Nat) :
    l.foldl (fun h s => h ^^^ g s) a = a ^^^ l.foldl (fun h s => h ^^^ g s) 0 := by
  induction l generalizing a with
  | nil => simp
  | cons x xs ih =>
    simp only [List.foldl_cons]
    rw [ih (a ^^^ g x), ih (0 ^^^ g x)]
    simp [Nat.xor_assoc]

lemma foldl_xor_range_succ (g : Nat → Nat) (n : Nat) :
    (List.range (n + 1)).foldl (fun h s => h ^^^ g s) 0 =
      (List.range n).foldl (fun h s => h ^^^ g s) 0 ^^^ g n := by
  have e : List.range (n + 1) = List.range n ++ [n] := by
    simpa using List.range_succ n
  rw [e, List.foldl_append]
  simp only [List.foldl_cons, List.foldl_nil]

lemma foldl_xor_sparse (g : Nat → Nat) :
    ∀ n, (∀ s, s < n → g s = 0) →
      (List.range n).foldl (fun h s => h ^^^ g s) 0 = 0 := by
  intro n
  induction n with
  | zero => intro h; rfl
  | succ k ih =>
    intro h
    rw [foldl_xor_range_succ, ih (fun s hs => h s (by omega)), h k (by omega)]
    simp

lemma foldl_xor_single (g : Nat → Nat) (p : Nat) :
    ∀ n, p < n → (∀ s, s < n → s ≠ p → g s = 0) →
      (List.range n).foldl (fun h s => h ^^^ g s) 0 = g p := by
  intro n
  induction n with
  | zero => omega
  | succ k ih =>
    intro hp h
    rw [foldl_xor_range_succ]
    by_cases hk : p = k
    · have hall : ∀ s, s < k → g s = 0 := fun s hs => h s (by omega) (by omega)
      rw [foldl_xor_sparse g k hall, Nat.zero_xor, hk]
    · rw [ih (by omega) (fun s hs hsp => h s (by omega) hsp), h k (by omega) (Ne.symm hk),
        Nat.xor_zero]

lemma foldl_xor_double (g : Nat → Nat) (p q : Nat) (hpq : p ≠ q) :
    ∀ n, p < n → q < n → (∀ s, s < n → s ≠ p → s ≠ q → g s = 0) →
      (List.range n).foldl (fun h s => h ^^^ g s) 0 = g p ^^^ g q := by
  intro n
  induction n with
  | zero => omega
  | succ k ih =>
    intro hp hq h
    rw [foldl_xor_range_succ]
    by_cases hkp : p = k
    · have hsing : (List.range k).foldl (fun h s => h ^^^ g s) 0 = g q := by
        apply foldl_xor_single g q k (by omega)
        intro s hs hsq
        exact h s (by omega) (by omega) hsq
      rw [hsing, hkp]
      exact Nat.xor_comm _ _
    · by_cases hkq : q = k
      · have hsing : (List.range k).foldl (fun h s => h ^^^ g s) 0 = g p := by
          apply foldl_xor_single g p k (by omega)
          intro s hs hsp
          exact h s (by omega) hsp (by omega)
        rw [hsing, hkq]
      · rw [ih (by omega) (by omega) (fun s hs h1 h2 => h s (by omega) h1 h2),
          h k (by omega) (Ne.symm hkp) (Ne.symm hkq), Nat.xor_zero]

lemma foldl_xor_diff (g1 g2 : Nat → Nat) :
    ∀ n, (List.range n).foldl (fun h s => h ^^^ g1 s) 0 ^^^
        (List.range n).foldl (fun h s => h ^^^ g2 s) 0 =
      (List.range n).foldl (fun h s => h ^^^ (g1 s ^^^ g2 s)) 0 := by
  intro n
  induction n with
  | zero => simp
  | succ k ih =>
    rw [foldl_xor_range_succ, foldl_xor_range_succ, foldl_xor_range_succ, ← ih]
    simp only [Nat.xor_assoc]
    rw [xor_lcomm (g1 k) _ _]

lemma xor_self_cancel (a b : Nat) : a ^^^ (a ^^^ b) = b := by
  rw [← Nat.xor_assoc, Nat.xor_self, Nat.zero_xor]

lemma makeMove_hash_correct (Z : Zob) (b : Board) (f t : Nat)
    (hflt : f < NUM_SQ) (htlt : t < NUM_SQ) (hft : f ≠ t)
    (hpf0 : b.squares f ≠ 0) (hstm : b.sideToMove < 2)
    (hhash : b.hash = computeHash Z b) :
    (makeMove Z b (encodeMove f t)).hash = computeHash Z (makeMove Z b (encodeMove f t)) := by
  have hf64 : f < 64 := by unfold NUM_SQ at hflt; omega
  have ht64 : t < 64 := by unfold NUM_SQ at htlt; omega
  have hmf : moveFrom (encodeMove f t) = f := moveFrom_encode hf64 ht64
  have hmt : moveTo (encodeMove f t) = t := moveTo_encode hf64 ht64
  have htf : t ≠ f := Ne.symm hft
  set b1 := makeMove Z b (encodeMove f t) with hb1
  have hsq1 : ∀ s, b1.squares s =
      if s = f then 0 else if s = t then b.squares f else b.squares s := by
    intro s
    rw [hb1]
    simp only [makeMove, hmf, hmt]
  have hstm1 : b1.sideToMove = 1 - b.sideToMove := by rw [hb1]; rfl
  have hh1 : b1.hash =
      ((if b.squares t ≠ 0 then
          b.hash ^^^ Z.piece t (b.squares t).natAbs (colorOf (b.squares t))
        else b.hash)
        ^^^ Z.piece f (b.squares f).natAbs (colorOf (b.squares f))
        ^^^ Z.piece t (b.squares f).natAbs (colorOf (b.squares f)))
        ^^^ Z.side := by
    rw [hb1]
    simp only [makeMove, hmf, hmt]
  have hDzero : ∀ s, s < NUM_SQ → s ≠ f → s ≠ t →
      pieceKey Z b1 s ^^^ pieceKey Z b s = 0 := by
    intro s _ hsf hst
    simp [pieceKey, hsq1 s, hsf, hst]
  have hFdiff : (List.range NUM_SQ).foldl (fun h s => h ^^^ pieceKey Z b1 s) 0
      = (List.range NUM_SQ).foldl (fun h s => h ^^^ pieceKey Z b s) 0
        ^^^ ((pieceKey Z b1 f ^^^ pieceKey Z b f) ^^^ (pieceKey Z b1 t ^^^ pieceKey Z b t)) := by
    have hdd := foldl_xor_diff (pieceKey Z b1) (pieceKey Z b) NUM_SQ
    have hdo := foldl_xor_double (fun s => pieceKey Z b1 s ^^^ pieceKey Z b s) f t hft
      NUM_SQ hflt htlt hDzero
    calc (List.range NUM_SQ).foldl (fun h s => h ^^^ pieceKey Z b1 s) 0
        = (List.range NUM_SQ).foldl (fun h s => h ^^^ pieceKey Z b s) 0 ^^^
          ((List.range NUM_SQ).foldl (fun h s => h ^^^ pieceKey Z b1 s) 0 ^^^
            (List.range NUM_SQ).foldl (fun h s => h ^^^ pieceKey Z b s) 0) :=
          xor_rearrange _ _
      _ = _ := by rw [hdd, hdo]
  have hkf : pieceKey Z b1 f = 0 := by
    simp [pieceKey, hsq1 f]
  have hkt : pieceKey Z b1 t = Z.piece t (b.squares f).natAbs (colorOf (b.squares f)) := by
    simp [pieceKey, hsq1 t, htf, hpf0]
  have hkbf : pieceKey Z b f = Z.piece f (b.squares f).natAbs (colorOf (b.squares f)) := by
    simp [pieceKey, hpf0]
  rw [computeHash_eq Z b1, hFdiff, hkf, hkt, hkbf, hh1]
  rw [computeHash_eq Z b] at hhash
  rw [hhash]
  have h01 : b.sideToMove = 0 ∨ b.sideToMove = 1 := by omega
  by_cases hc : b.squares t = 0
  · have hkbt : pieceKey Z b t = 0 := by simp [pieceKey, hc]
    rw [hkbt]
    rcases h01 with h0 | h0 <;>
      simp [h0, hstm1, hc, DARK, LIGHT] <;>
      simp [Nat.xor_assoc, Nat.xor_comm, xor_lcomm, Nat.xor_self, Nat.xor_zero,
        Nat.zero_xor, xor_self_cancel]
  · have hkbt : pieceKey Z b t = Z.piece t (b.squares t).natAbs (colorOf (b.squares t)) := by
      simp [pieceKey, hc]
    rw [hkbt]
    rcases h01 with h0 | h0 <;>
      simp [h0, hstm1, hc, DARK, LIGHT] <;>
      simp [Nat.xor_assoc, Nat.xor_comm, xor_lcomm, Nat.xor_self, Nat.xor_zero,
        Nat.zero_xor, xor_self_cancel]

/-- Round trip of `makeNullMove` and `unmakeNullMove`: the board, reverse
index, counts, hash, halfmove clock and history length are all restored. -/
lemma null_roundtrip (Z : Zob) (b : Board) :
    (∀ s, (unmakeNullMove (makeNullMove Z b)).squares s = b.squares s) ∧
    (∀ c r, (unmakeNullMove (makeNullMove Z b)).pieceSq c r = b.pieceSq c r) ∧
    (∀ c, (unmakeNullMove (makeNullMove Z b)).pieceCount c = b.pieceCount c) ∧
    (unmakeNullMove (makeNullMove Z b)).hash = b.hash ∧
    (unmakeNullMove (makeNullMove Z b)).halfmove = b.halfmove ∧
    (unmakeNullMove (makeNullMove Z b)).histLen = b.histLen := by
  refine ⟨fun s => rfl, fun c r => rfl, fun c => rfl, ?_, ?_, ?_⟩ <;>
    simp [unmakeNullMove, makeNullMove, upd_apply]

/-- After a null move the incremental hash still equals a fresh
recomputation. -/
lemma makeNull_hash_correct (Z : Zob) (b : Board) (hstm : b.sideToMove < 2)
    (hhash : b.hash = computeHash Z b) :
    (makeNullMove Z b).hash = computeHash Z (makeNullMove Z b) := by
  have hstm1 : (makeNullMove Z b).sideToMove = 1 - b.sideToMove := rfl
  have hh : (makeNullMove Z b).hash = b.hash ^^^ Z.side := rfl
  rw [computeHash_eq, hh]
  rw [computeHash_eq] at hhash
  have hfold : (List.range NUM_SQ).foldl (fun h s => h ^^^ pieceKey Z (makeNullMove Z b) s) 0
      = (List.range NUM_SQ).foldl (fun h s => h ^^^ pieceKey Z b s) 0 := rfl
  rw [hfold, hhash]
  rcases (by omega : b.sideToMove = 0 ∨ b.sideToMove = 1) with h0 | h0 <;>
    simp [h0, hstm1, DARK, Nat.xor_assoc, Nat.xor_zero]

/-! ## C1 — make/unmake round trip -/

/-- C1: on a well-formed (reachable) position, for a generated (legal)
move, `unmakeMove` after `makeMove` restores the board array, the reverse
index, the piece counts, the hash, the halfmove clock and the history
length; `unmakeNullMove` after `makeNullMove` does the same. -/
theorem make_unmake_restores_state (Z : Zob) (b : Board) (m : Nat)
    (hwf : wf b) (hm : m ∈ generateMoves b) :
    ((∀ s, (unmakeMove (makeMove Z b m)).squares s = b.squares s) ∧
     (∀ c r, (unmakeMove (makeMove Z b m)).pieceSq c r = b.pieceSq c r) ∧
     (∀ c, (unmakeMove (makeMove Z b m)).pieceCount c = b.pieceCount c) ∧
     (unmakeMove (makeMove Z b m)).hash = b.hash ∧
     (unmakeMove (makeMove Z b m)).halfmove = b.halfmove ∧
     (unmakeMove (makeMove Z b m)).histLen = b.histLen) ∧
    ((∀ s, (unmakeNullMove (makeNullMove Z b)).squares s = b.squares s) ∧
     (∀ c r, (unmakeNullMove (makeNullMove Z b)).pieceSq c r = b.pieceSq c r) ∧
     (∀ c, (unmakeNullMove (makeNullMove Z b)).pieceCount c = b.pieceCount c) ∧
     (unmakeNullMove (makeNullMove Z b)).hash = b.hash ∧
     (unmakeNullMove (makeNullMove Z b)).halfmove = b.halfmove ∧
     (unmakeNullMove (makeNullMove Z b)).histLen = b.histLen) := by
  obtain ⟨f, t, hmeq, hflt, htlt, hft, hpf0, hps⟩ := generateMoves_mem b m hwf hm
  subst hmeq
  exact ⟨make_unmake_aux Z b f t hflt htlt hft hpf0 hps
      (fun h0 => (hwf.2.2 t htlt h0).2.2), null_roundtrip Z b⟩

/-- Witness for C1: the Elephant move a3a4 from the initial position. -/
theorem make_unmake_restores_state_check :
    wf (initBoard zobTest) ∧
    encodeMove 14 21 ∈ generateMoves (initBoard zobTest) ∧
    (unmakeMove (makeMove zobTest (initBoard zobTest) (encodeMove 14 21))).histLen
      = (initBoard zobTest).histLen ∧
    (unmakeMove (makeMove zobTest (initBoard zobTest) (encodeMove 14 21))).hash
      = (initBoard zobTest).hash := by
  have hwf : wf (initBoard zobTest) := by decide
  have hm : encodeMove 14 21 ∈ generateMoves (initBoard zobTest) := by decide
  have h := make_unmake_restores_state zobTest (initBoard zobTest) (encodeMove 14 21) hwf hm
  exact ⟨hwf, hm, h.1.2.2.2.2.2, h.1.2.2.2.1⟩

/-! ## C2 — Zobrist incrementality -/

/-- C2: on a well-formed position whose hash equals a fresh recomputation,
the hash after `makeMove` of a generated move again equals a fresh
recomputation over the resulting board and side to move, and `unmakeMove`
restores the original hash; likewise for `makeNullMove`/`unmakeNullMove`. -/
theorem hash_incremental_correct (Z : Zob) (b : Board) (m : Nat)
    (hwf : wf b) (hhash : b.hash = computeHash Z b) (hm : m ∈ generateMoves b) :
    ((makeMove Z b m).hash = computeHash Z (makeMove Z b m) ∧
     (unmakeMove (makeMove Z b m)).hash = b.hash) ∧
    ((makeNullMove Z b).hash = computeHash Z (makeNullMove Z b) ∧
     (unmakeNullMove (makeNullMove Z b)).hash = b.hash) := by
  obtain ⟨f, t, hmeq, hflt, htlt, hft, hpf0, hps⟩ := generateMoves_mem b m hwf hm
  subst hmeq
  exact ⟨⟨makeMove_hash_correct Z b f t hflt htlt hft hpf0 hwf.1 hhash,
      (make_unmake_aux Z b f t hflt htlt hft hpf0 hps
        (fun h0 => (hwf.2.2 t htlt h0).2.2)).2.2.2.1⟩,
    makeNull_hash_correct Z b hwf.1 hhash, (null_roundtrip Z b).2.2.2.1⟩

/-- Witness for C2: the Elephant move a3a4 from the initial position. -/
theorem hash_incremental_correct_check :
    (wf (initBoard zobTest) ∧
      (initBoard zobTest).hash = computeHash zobTest (initBoard zobTest) ∧
      encodeMove 14 21 ∈ generateMoves (initBoard zobTest)) ∧
    (makeMove zobTest (initBoard zobTest) (encodeMove 14 21)).hash
      = computeHash zobTest (makeMove zobTest (initBoard zobTest) (encodeMove 14 21)) := by
  have hwf : wf (initBoard zobTest) := by decide
  have hh : (initBoard zobTest).hash = computeHash zobTest (initBoard zobTest) := by decide
  have hm : encodeMove 14 21 ∈ generateMoves (initBoard zobTest) := by decide
  have h := hash_incremental_correct zobTest (initBoard zobTest) (encodeMove 14 21) hwf hh hm
  exact ⟨⟨hwf, hh, hm⟩, h.1.1⟩

end Jungine
